import Mathlib

/-
Verification of the `schedule` Go package (scheduler.go, job.go).

The model works over a shallow embedding of Go's `time` package for a
fixed-offset (DST-free) location: an instant is its absolute nanosecond count
(`Int`) since 1970-01-01 00:00:00; `time.Date` normalizes the month with floor
semantics and adds the day and clock fields linearly; field extraction follows
the proleptic Gregorian calendar. Machine-integer overflow of `int64` durations
is not modelled. Each `for t.Before(now)` loop of `caclulateNextRunAt` is
embedded as `whileBefore`, which returns `none` when the loop cannot terminate
(a non-advancing step); the panicking `default` branch of the calculator is
likewise `none`. Store round trips of `scheduler.add` / `scheduler.update` are
parameterized by environments recording the outcome of each driver call.
-/

/-- Day count of a (possibly unnormalized) proleptic-Gregorian civil date;
day 0 is 1970-01-01. Mirrors the day arithmetic of Go `time.Date`. -/
def daysFromCivil (y m d : Int) : Int :=
  let yy := y - (if m ≤ 2 then 1 else 0)
  let mp := m + (if m ≤ 2 then 9 else -3)
  let era := yy / 400
  let yoe := yy - era * 400
  era * 146097 + 365 * yoe + yoe / 4 - yoe / 100
    + (153 * mp + 2) / 5 + (d - 1) - 719468

/-- Year-of-era from day-of-era, by estimate and correction. -/
def yoeOfDoe (doe : Int) : Int :=
  let e := doe / 365
  if 365 * e + e / 4 - e / 100 + e / 400 ≤ doe then e else e - 1

/-- Calendar year of a day number. -/
def yearOfDays (z : Int) : Int :=
  let doe := (z + 719468) % 146097
  let yoe := yoeOfDoe doe
  let doy := doe - (365 * yoe + yoe / 4 - yoe / 100)
  let mp := (5 * doy + 2) / 153
  let m := mp + (if mp < 10 then 3 else -9)
  yoe + ((z + 719468) / 146097) * 400 + (if m ≤ 2 then 1 else 0)

/-- Calendar month (1–12) of a day number. -/
def monthOfDays (z : Int) : Int :=
  let doe := (z + 719468) % 146097
  let yoe := yoeOfDoe doe
  let doy := doe - (365 * yoe + yoe / 4 - yoe / 100)
  let mp := (5 * doy + 2) / 153
  mp + (if mp < 10 then 3 else -9)

/-- Day of month (1–31) of a day number. -/
def dayOfDays (z : Int) : Int :=
  let doe := (z + 719468) % 146097
  let yoe := yoeOfDoe doe
  let doy := doe - (365 * yoe + yoe / 4 - yoe / 100)
  let mp := (5 * doy + 2) / 153
  doy - (153 * mp + 2) / 5 + 1

/-- Nanoseconds per second/minute/hour/day. -/
def nsPerSecond : Int := 1000000000

def nsPerMinute : Int := 60000000000

def nsPerHour : Int := 3600000000000

def nsPerDay : Int := 86400000000000

/-- Calendar year of an absolute-nanosecond instant (Go `Time.Year`). -/
def timeYear (t : Int) : Int := yearOfDays (t / 86400000000000)

/-- Calendar month of an instant (Go `Time.Month`). -/
def timeMonth (t : Int) : Int := monthOfDays (t / 86400000000000)

/-- Day of month of an instant (Go `Time.Day`). -/
def timeDay (t : Int) : Int := dayOfDays (t / 86400000000000)

/-- Hour of an instant (Go `Time.Hour`). -/
def timeHour (t : Int) : Int := t % 86400000000000 / 3600000000000

/-- Minute of an instant (Go `Time.Minute`). -/
def timeMinute (t : Int) : Int := t % 3600000000000 / 60000000000

/-- Second of an instant (Go `Time.Second`). -/
def timeSecond (t : Int) : Int := t % 60000000000 / 1000000000

/-- Nanosecond of an instant (Go `Time.Nanosecond`). -/
def timeNano (t : Int) : Int := t % 1000000000

/-- Weekday of an instant, Sunday = 0 (Go `Time.Weekday`); day 0 (1970-01-01) is Thursday. -/
def timeWeekday (t : Int) : Int := (t / 86400000000000 + 4) % 7

/-- Go `time.Date(y, mo, d, h, mi, s, ns, loc)` in a fixed-offset location:
normalizes the month, then adds the (possibly out-of-range) day/clock fields linearly. -/
def goDate (y mo d h mi s ns : Int) : Int :=
  daysFromCivil (y + (mo - 1) / 12) ((mo - 1) % 12 + 1) d * 86400000000000
    + h * 3600000000000 + mi * 60000000000 + s * 1000000000 + ns

/-- Go `Time.AddDate(y, mo, d)`: re-extract the civil fields and rebuild via `goDate`. -/
def addDate (t y mo d : Int) : Int :=
  goDate (timeYear t + y) (timeMonth t + mo) (timeDay t + d)
    (timeHour t) (timeMinute t) (timeSecond t) (timeNano t)

/-- Day number of the first of the (normalized) month `mo` of year `y`. -/
def monthStartDays (y mo : Int) : Int :=
  daysFromCivil (y + (mo - 1) / 12) ((mo - 1) % 12 + 1) 1

/-- One Go `for t.Before(now) { t = step(t) }` loop, with an explicit fuel bound.
The fuel `(now - t).toNat` is exact because every productive step advances by at
least one nanosecond; a non-advancing step (`step t ≤ t`) can never reach `now`,
which in Go is an infinite loop — modelled as `none`. -/
def runLoop (step : Int → Int) (now : Int) : Nat → Int → Option Int
  | 0, t => if t < now then none else some t
  | fuel + 1, t =>
      if t < now then
        (if t < step t then runLoop step now fuel (step t) else none)
      else some t

/-- The Go loop `for t.Before(now) { t = step(t) }`: final value, or `none` on divergence. -/
def whileBefore (step : Int → Int) (now t : Int) : Option Int :=
  runLoop step now (now - t).toNat t

/-- Model of `IntervalType` of `job.go` (the string constants `once`, `years`, ...). -/
inductive IntervalType where
  | once
  | years
  | months
  | weeks
  | days
  | hours
  | minutes
  | seconds
deriving DecidableEq, Repr

/-- The `job` struct of `job.go` (builder-relevant and run-state fields;
`JobDuration`, the callback and the scheduler pointer carry no scheduling state). -/
structure GoJob where
  jobName : String
  intervalAmount : Int
  intervalType : IntervalType
  month : Int
  day : Int
  hour : Int
  minute : Int
  second : Int
  startAt : Int
  lastRunAt : Int
  nextRunAt : Int
deriving DecidableEq, Repr

/-- Model of `job.caclulateNextRunAt` of `job.go`: the value stored into `j.NextRunAt`,
or `none` when the Go code panics (the `default` branch, reached by `Once`)
or loops forever (non-advancing step, possible only for non-positive amounts). -/
def caclulateNextRunAt (j : GoJob) (now : Int) : Option Int :=
  match j.intervalType with
  | .years =>
      let n0 := goDate (timeYear j.startAt) j.month j.day j.hour j.minute j.second
        (timeNano j.startAt)
      let n1 := addDate n0 (j.intervalAmount - 1) 0 0
      whileBefore (fun t => addDate t j.intervalAmount 0 0) now n1
  | .months =>
      let n0 := goDate (timeYear j.startAt) (timeMonth j.startAt) j.day j.hour j.minute
        j.second (timeNano j.startAt)
      let n1 := addDate n0 0 (j.intervalAmount - 1) 0
      whileBefore (fun t => addDate t 0 j.intervalAmount 0) now n1
  | .weeks =>
      let n0 := goDate (timeYear j.startAt) (timeMonth j.startAt) (timeDay j.startAt)
        j.hour j.minute j.second (timeNano j.startAt)
      let n1 := addDate n0 0 0 (j.day - timeWeekday j.startAt)
      whileBefore (fun t => addDate t 0 0 (j.intervalAmount * 7)) now n1
  | .days =>
      let n0 := goDate (timeYear j.startAt) (timeMonth j.startAt) (timeDay j.startAt)
        j.hour j.minute j.second (timeNano j.startAt)
      whileBefore (fun t => addDate t 0 0 1) now n0
  | .hours =>
      let n0 := goDate (timeYear j.startAt) (timeMonth j.startAt) (timeDay j.startAt)
        (timeHour j.startAt) (timeMinute j.startAt) (timeSecond j.startAt)
        (timeNano j.startAt)
      whileBefore (fun t => t + 3600000000000 * j.intervalAmount) now
        (n0 + 3600000000000 * j.intervalAmount)
  | .minutes =>
      let n0 := goDate (timeYear j.startAt) (timeMonth j.startAt) (timeDay j.startAt)
        (timeHour j.startAt) (timeMinute j.startAt) (timeSecond j.startAt)
        (timeNano j.startAt)
      whileBefore (fun t => t + 60000000000 * j.intervalAmount) now
        (n0 + 60000000000 * j.intervalAmount)
  | .seconds =>
      let n0 := goDate (timeYear j.startAt) (timeMonth j.startAt) (timeDay j.startAt)
        (timeHour j.startAt) (timeMinute j.startAt) (timeSecond j.startAt)
        (timeNano j.startAt)
      whileBefore (fun t => t + 1000000000 * j.intervalAmount) now
        (n0 + 1000000000 * j.intervalAmount)
  | .once => none

/-- Model of `j.caclulateNextRunAt(now)` as a state update of the job. -/
def calcJob (j : GoJob) (now : Int) : Option GoJob :=
  (caclulateNextRunAt j now).map (fun r => { j with nextRunAt := r })

/-- Model of `job.Once` of `job.go`. -/
def jobOnce (j : GoJob) : GoJob :=
  { j with intervalAmount := 0, intervalType := .once }

/-- Model of `job.Starting` of `job.go`: set `StartAt` and recompute `NextRunAt`. -/
def jobStarting (j : GoJob) (t : Int) : Option GoJob :=
  calcJob { j with startAt := t } t

/-- Result of `scheduler.update` as observed by `job.execute`. -/
inductive UpdateOutcome where
  | ok
  | alreadyClaimed
  | storeError
deriving DecidableEq, Repr

/-- Outcomes of the store round trips inside one `scheduler.update` call:
the fetched row's `next_run_at` and the error results of the driver calls. -/
structure StoreEnv where
  fetchErr : Bool
  dbNextRunAt : Int
  saveErr : Bool
  commitErr : Bool
  rollbackErr : Bool
deriving DecidableEq, Repr

/-- Model of `scheduler.update` of `scheduler.go`. -/
def schedulerUpdate (env : StoreEnv) (hasDB : Bool) (j : GoJob) : UpdateOutcome :=
  if !hasDB then .ok
  else if env.fetchErr then .storeError
  else if j.nextRunAt ≤ env.dbNextRunAt then .alreadyClaimed
  else if env.saveErr then .storeError
  else if env.commitErr && env.rollbackErr then .storeError
  else .ok

/-- Model of `job.execute` of `job.go`. Returns the final job state, the boolean result,
and whether the callback `j.do` was invoked; `none` when `caclulateNextRunAt`
panics or diverges. -/
def execute (env : StoreEnv) (hasDB : Bool) (j : GoJob) (now : Int) :
    Option (GoJob × Bool × Bool) :=
  if now < j.nextRunAt then some (j, false, false)
  else
    match calcJob { j with lastRunAt := j.nextRunAt } now with
    | none => none
    | some j2 =>
        if schedulerUpdate env hasDB j2 = .ok then some (j2, true, true)
        else some (j2, false, false)

/-- Result of the row fetch inside `scheduler.add`. -/
inductive FetchResult where
  | notFound
  | failed
  | found
deriving DecidableEq, Repr

/-- Errors surfaced by `scheduler.add`. -/
inductive AddError where
  | duplicate
  | storeFailed
deriving DecidableEq, Repr

/-- Outcomes of the store round trips inside one `scheduler.add` call. -/
structure AddEnv where
  hasDB : Bool
  fetch : FetchResult
  createErr : Bool
  saveErr : Bool
  commitErr : Bool
  rollbackErr : Bool
deriving DecidableEq, Repr

/-- Model of `scheduler.add` of `scheduler.go`: returns the updated job list (the deferred
append fires on every path after the duplicate check) and the returned error. -/
def schedulerAdd (env : AddEnv) (jobs : List GoJob) (j : GoJob) :
    List GoJob × Option AddError :=
  if jobs.any (fun a => a.jobName == j.jobName) then (jobs, some .duplicate)
  else
    let jobs' := jobs ++ [j]
    if !env.hasDB then (jobs', none)
    else
      match env.fetch with
      | .notFound =>
          if env.createErr then (jobs', none)
          else if env.commitErr && env.rollbackErr then (jobs', some .storeFailed)
          else (jobs', none)
      | .failed => (jobs', some .storeFailed)
      | .found =>
          if env.saveErr then (jobs', some .storeFailed)
          else if env.commitErr && env.rollbackErr then (jobs', some .storeFailed)
          else (jobs', none)

/-- Sample job fixture used by the concrete witnesses: named `t`, anchors and
run-state fields zero, `StartAt` at the epoch instant 0. -/
def tj (it : IntervalType) (amt : Int) : GoJob :=
  { jobName := "t", intervalAmount := amt, intervalType := it, month := 0, day := 0,
    hour := 0, minute := 0, second := 0, startAt := 0, lastRunAt := 0, nextRunAt := 0 }

/-- Nanoseconds in one step unit of the fixed-duration interval types. -/
def intervalUnitNs : IntervalType → Int
  | .hours => 3600000000000
  | .minutes => 60000000000
  | .seconds => 1000000000
  | _ => 0

example : daysFromCivil 1970 1 1 = 0 := by decide

example : yearOfDays 0 = 1970 ∧ monthOfDays 0 = 1 ∧ dayOfDays 0 = 1 := by decide

example : yearOfDays 11016 = 2000 ∧ monthOfDays 11016 = 2 ∧ dayOfDays 11016 = 29 := by decide

example : yearOfDays (-1) = 1969 ∧ monthOfDays (-1) = 12 ∧ dayOfDays (-1) = 31 := by decide

lemma yoeOfDoe_spec (doe : Int) (h0 : 0 ≤ doe) (h1 : doe ≤ 146096) :
    0 ≤ yoeOfDoe doe ∧ yoeOfDoe doe ≤ 399 ∧
    365 * yoeOfDoe doe + yoeOfDoe doe / 4 - yoeOfDoe doe / 100 ≤ doe ∧
    doe - (365 * yoeOfDoe doe + yoeOfDoe doe / 4 - yoeOfDoe doe / 100) ≤ 365 := by
  unfold yoeOfDoe
  by_cases hb : 365 * (doe / 365) + (doe / 365) / 4 - (doe / 365) / 100 + (doe / 365) / 400 ≤ doe
  · rw [if_pos hb]
    refine ⟨by omega, by omega, by omega, by omega⟩
  · rw [if_neg hb]
    refine ⟨by omega, by omega, ?_, ?_⟩
    · have hg : (doe / 365 - 1) / 4 ≤ 99 := by omega
      have hh : 0 ≤ (doe / 365 - 1) / 100 := by omega
      omega
    · by_cases hf : doe / 365 = 400
      · rw [hf] at hb ⊢
        omega
      · have hf0 : (doe / 365) / 400 = 0 := by omega
        have hg2 : (doe / 365) / 4 - 1 ≤ (doe / 365 - 1) / 4 := by omega
        have hh2 : (doe / 365 - 1) / 100 ≤ (doe / 365) / 100 := by omega
        omega

/-- Parts-based specification of the day-number inversion. -/
lemma dfc_of_parts (z era doe yoe doy mp m d : Int)
    (hera : era = (z + 719468) / 146097)
    (hdoe : doe = (z + 719468) % 146097)
    (hyoe : yoe = yoeOfDoe doe)
    (hdoy : doy = doe - (365 * yoe + yoe / 4 - yoe / 100))
    (hmp : mp = (5 * doy + 2) / 153)
    (hm : m = mp + (if mp < 10 then 3 else -9))
    (hd : d = doy - (153 * mp + 2) / 5 + 1) :
    daysFromCivil (yoe + era * 400 + (if m ≤ 2 then 1 else 0)) m d = z ∧ 1 ≤ m ∧ m ≤ 12 := by
  have hdoe0 : 0 ≤ doe := by omega
  have hdoe1 : doe ≤ 146096 := by omega
  obtain ⟨hy0, hy399, hlo, hhi⟩ := yoeOfDoe_spec doe hdoe0 hdoe1
  rw [← hyoe] at hy0 hy399 hlo hhi
  have hdoy0 : 0 ≤ doy := by omega
  have hdoy365 : doy ≤ 365 := by omega
  have hmp0 : 0 ≤ mp := by omega
  have hmp11 : mp ≤ 11 := by omega
  by_cases h10 : mp < 10
  · have hmval : m = mp + 3 := by rw [hm, if_pos h10]
    have hm2 : ¬ (m ≤ 2) := by omega
    refine ⟨?_, by omega, by omega⟩
    rw [if_neg hm2]
    simp only [daysFromCivil, if_neg hm2]
    have hj : (yoe + era * 400 + 0 - 0) / 400 = era := by omega
    have hn : (153 * (m + -3) + 2) / 5 = (153 * mp + 2) / 5 := by omega
    rw [hj, hn]
    have hi : (yoe + era * 400 + 0 - 0 - era * 400) / 4 = yoe / 4 := by omega
    have hq : (yoe + era * 400 + 0 - 0 - era * 400) / 100 = yoe / 100 := by omega
    rw [hi, hq]
    omega
  · have hmval : m = mp + -9 := by rw [hm, if_neg h10]
    have hm2 : m ≤ 2 := by omega
    refine ⟨?_, by omega, by omega⟩
    rw [if_pos hm2]
    simp only [daysFromCivil, if_pos hm2]
    have hj : (yoe + era * 400 + 1 - 1) / 400 = era := by omega
    have hn : (153 * (m + 9) + 2) / 5 = (153 * mp + 2) / 5 := by omega
    rw [hj, hn]
    have hi : (yoe + era * 400 + 1 - 1 - era * 400) / 4 = yoe / 4 := by omega
    have hq : (yoe + era * 400 + 1 - 1 - era * 400) / 100 = yoe / 100 := by omega
    rw [hi, hq]
    omega

/-- Inverting a day number through the civil fields recovers the day number. -/
theorem daysFromCivil_inv (z : Int) :
    daysFromCivil (yearOfDays z) (monthOfDays z) (dayOfDays z) = z := by
  exact (dfc_of_parts z _ _ _ _ _ _ _ rfl rfl rfl rfl rfl rfl rfl).1

/-- The extracted month lies in 1..12. -/
theorem monthOfDays_range (z : Int) : 1 ≤ monthOfDays z ∧ monthOfDays z ≤ 12 :=
  (dfc_of_parts z _ _ _ _ _ _ _ rfl rfl rfl rfl rfl rfl rfl).2

example : goDate 1970 1 1 0 0 0 0 = 0 := by decide

example : goDate 1970 1 2 0 0 0 5 = 86400000000005 := by decide

example : goDate 1969 13 1 25 0 0 0 = 90000000000000 := by decide

example : timeWeekday 0 = 4 := by decide

/-- Rebuilding an instant from its extracted fields gives back the instant. -/
theorem goDate_timeFields (t : Int) :
    goDate (timeYear t) (timeMonth t) (timeDay t)
      (timeHour t) (timeMinute t) (timeSecond t) (timeNano t) = t := by
  unfold goDate timeYear timeMonth timeDay timeHour timeMinute timeSecond timeNano
  obtain ⟨hm1, hm12⟩ := monthOfDays_range (t / 86400000000000)
  have hn1 : (monthOfDays (t / 86400000000000) - 1) / 12 = 0 := by omega
  have hn2 : (monthOfDays (t / 86400000000000) - 1) % 12 + 1
      = monthOfDays (t / 86400000000000) := by omega
  rw [hn1, hn2, add_zero, daysFromCivil_inv]
  omega

/-- Lemma: `daysFromCivil` is linear in the day argument. -/
lemma daysFromCivil_day (y m d : Int) :
    daysFromCivil y m d = daysFromCivil y m 1 + (d - 1) := by
  simp only [daysFromCivil]
  ring

/-- Lemma: `goDate` shifts by exactly `k` days when the day argument shifts by `k`. -/
lemma goDate_day_add (y mo d h mi s ns k : Int) :
    goDate y mo (d + k) h mi s ns = goDate y mo d h mi s ns + k * 86400000000000 := by
  unfold goDate
  rw [daysFromCivil_day _ _ (d + k), daysFromCivil_day _ _ d]
  ring

/-- Lemma: `AddDate(0, 0, k)` adds exactly `k` civil days (fixed-offset model). -/
theorem addDate_days (t k : Int) : addDate t 0 0 k = t + k * 86400000000000 := by
  unfold addDate
  rw [add_zero, add_zero, goDate_day_add]
  rw [goDate_timeFields]

lemma yearFn_step (x : Int) :
    (x / 400) * 146097 + 365 * (x - x / 400 * 400) + (x - x / 400 * 400) / 4
        - (x - x / 400 * 400) / 100 + 365
      ≤ ((x + 1) / 400) * 146097 + 365 * (x + 1 - (x + 1) / 400 * 400)
        + (x + 1 - (x + 1) / 400 * 400) / 4 - (x + 1 - (x + 1) / 400 * 400) / 100 := by
  by_cases hb : x % 400 = 399
  · have h1 : (x + 1) / 400 = x / 400 + 1 := by omega
    rw [h1]
    omega
  · have h1 : (x + 1) / 400 = x / 400 := by omega
    rw [h1]
    omega

lemma dfc_year_step (y m d : Int) :
    daysFromCivil y m d + 365 ≤ daysFromCivil (y + 1) m d := by
  have k1 := yearFn_step (y - 1)
  have k2 := yearFn_step y
  simp only [daysFromCivil]
  by_cases hc : m ≤ 2
  · simp only [if_pos hc]
    omega
  · simp only [if_neg hc]
    omega

lemma dfc_year_mono (y m d : Int) (n : ℕ) :
    daysFromCivil y m d + 365 * n ≤ daysFromCivil (y + n) m d := by
  induction n with
  | zero => simp
  | succ k ih =>
      have hstep := dfc_year_step (y + k) m d
      have hrw : y + ((k : ℤ) + 1) = y + (k : ℤ) + 1 := by ring
      push_cast
      rw [hrw]
      push_cast at ih
      omega

/-- Advancing the month argument by one advances the month start by at least 28 days. -/
lemma monthStartDays_step (y mo : Int) :
    monthStartDays y mo + 28 ≤ monthStartDays y (mo + 1) := by
  unfold monthStartDays
  by_cases hk : (mo - 1) % 12 = 11
  · have h1 : (mo + 1 - 1) / 12 = (mo - 1) / 12 + 1 := by omega
    have h2 : (mo + 1 - 1) % 12 = 0 := by omega
    rw [h1, h2, hk]
    simp only [daysFromCivil]
    rw [if_pos (show (0:Int) + 1 ≤ 2 by norm_num), if_pos (show (0:Int) + 1 ≤ 2 by norm_num),
      if_neg (show ¬ ((11:Int) + 1 ≤ 2) by norm_num), if_neg (show ¬ ((11:Int) + 1 ≤ 2) by norm_num)]
    omega
  · have h1 : (mo + 1 - 1) / 12 = (mo - 1) / 12 := by omega
    have h2 : (mo + 1 - 1) % 12 = (mo - 1) % 12 + 1 := by omega
    rw [h1, h2]
    by_cases hr0 : (mo - 1) % 12 = 0
    · rw [hr0]
      simp only [daysFromCivil]
      rw [if_pos (show (0:Int) + 1 ≤ 2 by norm_num), if_pos (show (0:Int) + 1 ≤ 2 by norm_num),
        if_pos (show (0:Int) + 1 + 1 ≤ 2 by norm_num), if_pos (show (0:Int) + 1 + 1 ≤ 2 by norm_num)]
      omega
    · by_cases hr1 : (mo - 1) % 12 = 1
      · rw [hr1]
        simp only [daysFromCivil]
        rw [if_pos (show (1:Int) + 1 ≤ 2 by norm_num), if_pos (show (1:Int) + 1 ≤ 2 by norm_num),
          if_neg (show ¬ ((1:Int) + 1 + 1 ≤ 2) by norm_num), if_neg (show ¬ ((1:Int) + 1 + 1 ≤ 2) by norm_num)]
        have k1 := yearFn_step (y + (mo - 1) / 12 - 1)
        omega
      · simp only [daysFromCivil]
        rw [if_neg (show ¬ ((mo - 1) % 12 + 1 ≤ 2) by omega),
          if_neg (show ¬ ((mo - 1) % 12 + 1 ≤ 2) by omega),
          if_neg (show ¬ ((mo - 1) % 12 + 1 + 1 ≤ 2) by omega),
          if_neg (show ¬ ((mo - 1) % 12 + 1 + 1 ≤ 2) by omega)]
        omega

/-- Advancing the month argument by `n : ℕ` advances the month start by ≥ `28 n` days. -/
lemma monthStartDays_mono (y mo : Int) (n : ℕ) :
    monthStartDays y mo + 28 * n ≤ monthStartDays y (mo + n) := by
  induction n with
  | zero => simp
  | succ k ih =>
      have hstep := monthStartDays_step y (mo + k)
      have harg : mo + (k : ℤ) + 1 = mo + ((k : ℤ) + 1) := by ring
      rw [harg] at hstep
      push_cast
      push_cast at ih
      omega

/-- Advancing the year argument by `n : ℕ` advances the month start by ≥ `365 n` days. -/
lemma monthStartDays_year_mono (y mo : Int) (n : ℕ) :
    monthStartDays y mo + 365 * n ≤ monthStartDays (y + n) mo := by
  unfold monthStartDays
  have h := dfc_year_mono (y + (mo - 1) / 12) ((mo - 1) % 12 + 1) 1 n
  have harg : y + (mo - 1) / 12 + (n : ℤ) = y + (n : ℤ) + (mo - 1) / 12 := by ring
  rw [harg] at h
  omega

/-- `goDate` decomposed into month start, day offset and clock offset. -/
lemma goDate_decomp (y mo d h mi s ns : Int) :
    goDate y mo d h mi s ns = monthStartDays y mo * 86400000000000
      + (d - 1) * 86400000000000 + h * 3600000000000 + mi * 60000000000
      + s * 1000000000 + ns := by
  unfold goDate monthStartDays
  rw [daysFromCivil_day]
  ring

/-- An instant decomposed through its extracted fields. -/
lemma self_decomp (t : Int) :
    t = monthStartDays (timeYear t) (timeMonth t) * 86400000000000
      + (timeDay t - 1) * 86400000000000 + timeHour t * 3600000000000
      + timeMinute t * 60000000000 + timeSecond t * 1000000000 + timeNano t := by
  conv_lhs => rw [← goDate_timeFields t]
  rw [goDate_decomp]

/-- `AddDate(a, 0, 0)` with `a ≥ 1` advances the instant by at least 365 days. -/
lemma addDate_year_progress (t a : Int) (ha : 1 ≤ a) :
    t + 365 * 86400000000000 ≤ addDate t a 0 0 := by
  unfold addDate
  rw [add_zero, add_zero, goDate_decomp]
  have hn : ((a.toNat : ℕ) : ℤ) = a := by omega
  have h := monthStartDays_year_mono (timeYear t) (timeMonth t) a.toNat
  rw [hn] at h
  have hone : (1 : ℤ) ≤ ((a.toNat : ℕ) : ℤ) := by omega
  have hd := self_decomp t
  omega

/-- `AddDate(0, a, 0)` with `a ≥ 1` advances the instant by at least 28 days. -/
lemma addDate_month_progress (t a : Int) (ha : 1 ≤ a) :
    t + 28 * 86400000000000 ≤ addDate t 0 a 0 := by
  unfold addDate
  rw [add_zero, add_zero, goDate_decomp]
  have hn : ((a.toNat : ℕ) : ℤ) = a := by omega
  have h := monthStartDays_mono (timeYear t) (timeMonth t) a.toNat
  rw [hn] at h
  have hone : (1 : ℤ) ≤ ((a.toNat : ℕ) : ℤ) := by omega
  have hd := self_decomp t
  omega

lemma runLoop_ge (step : Int → Int) (now : Int) :
    ∀ (fuel : Nat) (t r : Int), runLoop step now fuel t = some r → now ≤ r := by
  intro fuel
  induction fuel with
  | zero =>
      intro t r h
      simp only [runLoop] at h
      by_cases hc : t < now
      · rw [if_pos hc] at h; cases h
      · rw [if_neg hc] at h; cases h; omega
  | succ k ih =>
      intro t r h
      simp only [runLoop] at h
      by_cases hc : t < now
      · rw [if_pos hc] at h
        by_cases hs : t < step t
        · rw [if_pos hs] at h
          exact ih _ _ h
        · rw [if_neg hs] at h; cases h
      · rw [if_neg hc] at h; cases h; omega

lemma runLoop_isSome (step : Int → Int) (now : Int) (hprog : ∀ x, x < step x) :
    ∀ (fuel : Nat) (t : Int), (now - t).toNat ≤ fuel →
      ∃ r, runLoop step now fuel t = some r := by
  intro fuel
  induction fuel with
  | zero =>
      intro t hf
      have hc : ¬ (t < now) := by omega
      exact ⟨t, by simp only [runLoop]; rw [if_neg hc]⟩
  | succ k ih =>
      intro t hf
      by_cases hc : t < now
      · have hs : t < step t := hprog t
        have hf' : (now - step t).toNat ≤ k := by
          have := hprog t
          omega
        obtain ⟨r, hr⟩ := ih (step t) hf'
        exact ⟨r, by simp only [runLoop]; rw [if_pos hc, if_pos hs]; exact hr⟩
      · exact ⟨t, by simp only [runLoop]; rw [if_neg hc]⟩

lemma runLoop_affine (d now : Int) (hd : 0 < d) :
    ∀ (fuel : Nat) (t : Int), (now - t).toNat ≤ fuel →
      ∃ k : Nat, runLoop (fun x => x + d) now fuel t = some (t + k * d) ∧
        now ≤ t + k * d ∧ ∀ i : Nat, i < k → t + i * d < now := by
  intro fuel
  induction fuel with
  | zero =>
      intro t hf
      have hc : ¬ (t < now) := by omega
      refine ⟨0, ?_, by push_cast; omega, by omega⟩
      simp only [runLoop]
      rw [if_neg hc]
      norm_num
  | succ k ih =>
      intro t hf
      by_cases hc : t < now
      · have hs : t < t + d := by omega
        have hf' : (now - (t + d)).toNat ≤ k := by omega
        obtain ⟨m, hm, hge, hlt⟩ := ih (t + d) hf'
        refine ⟨m + 1, ?_, ?_, ?_⟩
        · simp only [runLoop]
          rw [if_pos hc, if_pos hs, hm]
          congr 1
          push_cast
          ring
        · push_cast
          have hx : ((m : ℤ) + 1) * d = (m : ℤ) * d + d := by ring
          rw [hx]
          omega
        · intro i hi
          rcases i with _ | j
          · norm_num
            omega
          · have hj : j < m := by omega
            have hlt' := hlt j hj
            push_cast
            push_cast at hlt'
            have hx : ((j : ℤ) + 1) * d = (j : ℤ) * d + d := by ring
            rw [hx]
            omega
      · refine ⟨0, ?_, by push_cast; omega, by omega⟩
        simp only [runLoop]
        rw [if_neg hc]
        norm_num

/-- Values returned by a Go before-loop are at or after `now`. -/
lemma whileBefore_ge (step : Int → Int) (now t r : Int)
    (h : whileBefore step now t = some r) : now ≤ r :=
  runLoop_ge step now _ t r h

/-- A before-loop whose step always advances terminates. -/
lemma whileBefore_isSome (step : Int → Int) (now t : Int) (hprog : ∀ x, x < step x) :
    ∃ r, whileBefore step now t = some r :=
  runLoop_isSome step now hprog _ t le_rfl

/-- Closed form of a before-loop with a constant positive step. -/
lemma whileBefore_affine (d now t : Int) (hd : 0 < d) :
    ∃ k : Nat, whileBefore (fun x => x + d) now t = some (t + k * d) ∧
      now ≤ t + k * d ∧ ∀ i : Nat, i < k → t + i * d < now :=
  runLoop_affine d now hd _ t le_rfl

example : caclulateNextRunAt (tj .seconds 1) 3 = some 1000000000 := by decide

example : caclulateNextRunAt (tj .seconds 1) 2500000000 = some 3000000000 := by decide

example : caclulateNextRunAt (tj .once 0) 3 = none := rfl

example : caclulateNextRunAt (tj .days 5) 1 = some 86400000000000 := by decide

example : caclulateNextRunAt (tj .hours 2) 1 = some 7200000000000 := by decide

example : caclulateNextRunAt { tj .weeks 1 with day := 5 } 1 = some 86400000000000 := by decide

example : caclulateNextRunAt { tj .months 1 with day := 1 } 1 = some 2678400000000000 := by decide

example : caclulateNextRunAt { tj .years 1 with month := 1, day := 1 } 1
    = some 31536000000000000 := by decide

example : caclulateNextRunAt (tj .seconds 0) 3 = none := by decide

lemma calc_state_ignored (j : GoJob) (now x y : Int) :
    caclulateNextRunAt { j with nextRunAt := x, lastRunAt := y } now
      = caclulateNextRunAt j now := by
  cases j
  rfl

/-- Claim C3 (code bug). The claim — backed by the repository's own README and
`TestDatabaseOnce` — says `Once().Starting(t)` builds a job whose next fire instant
is exactly `startAt`, firing once, without panicking. In the code,
`caclulateNextRunAt` has no `Once` case, so the `default` branch panics
("increment type once not implemented") already inside `Starting`; modelled here as
`jobStarting (jobOnce j) t = none` for every job and every start instant. -/
theorem C3_once_starting_panics (j : GoJob) (t : Int) :
    jobStarting (jobOnce j) t = none := by
  cases j
  rfl

/-- Claim C7. For every job and every `now` with `nextRunAt` strictly after `now`,
`execute` returns false and leaves the job completely unchanged: the same record is
returned, the callback is not invoked, and the outcome is independent of the store
environment (no store interaction can influence it). -/
theorem C7_not_due_no_effect (env : StoreEnv) (hasDB : Bool) (j : GoJob) (now : Int)
    (h : now < j.nextRunAt) :
    execute env hasDB j now = some (j, false, false) := by
  unfold execute
  rw [if_pos h]

theorem C7_witness :
    (0 : Int) < (tj .seconds 1).nextRunAt + 5 ∧
      execute ⟨false, 0, false, false, false⟩ true { tj .seconds 1 with nextRunAt := 5 } 0
        = some ({ tj .seconds 1 with nextRunAt := 5 }, false, false) :=
  ⟨by decide, C7_not_due_no_effect ⟨false, 0, false, false, false⟩ true
    { tj .seconds 1 with nextRunAt := 5 } 0 (by decide)⟩

/-- Claim C8. Registering a job whose name equals an already-registered job's name
makes `scheduler.add` return the duplicate error with the job list unchanged (the
first registration stands), and the result is the same for every store environment —
the rejection happens before any store interaction. -/
theorem C8_duplicate_rejected (jobs : List GoJob) (j : GoJob)
    (h : ∃ a ∈ jobs, a.jobName = j.jobName) (env : AddEnv) :
    schedulerAdd env jobs j = (jobs, some .duplicate) := by
  unfold schedulerAdd
  have hany : jobs.any (fun a => a.jobName == j.jobName) = true := by
    rw [List.any_eq_true]
    obtain ⟨a, ha, hn⟩ := h
    exact ⟨a, ha, by simp [hn]⟩
  rw [if_pos hany]

theorem C8_witness :
    (∃ a ∈ [tj .seconds 1], a.jobName = (tj .seconds 2).jobName) ∧
      schedulerAdd ⟨true, .notFound, false, false, false, false⟩ [tj .seconds 1] (tj .seconds 2)
        = ([tj .seconds 1], some .duplicate) :=
  ⟨⟨tj .seconds 1, by simp, by decide⟩,
    C8_duplicate_rejected [tj .seconds 1] (tj .seconds 2)
      ⟨tj .seconds 1, by simp, by decide⟩ ⟨true, .notFound, false, false, false, false⟩⟩

/-- Claim C9. The next-run calculator is deterministic and idempotent: its result
depends only on the cadence definition and `now` — changing the `nextRunAt` and
`lastRunAt` state fields does not change the computed value — and invoking the
calculator a second time on the just-updated job reproduces the same state. -/
theorem C9_calculator_deterministic (j : GoJob) (now x y : Int) :
    caclulateNextRunAt { j with nextRunAt := x, lastRunAt := y } now
        = caclulateNextRunAt j now ∧
      (∀ j1, calcJob j now = some j1 → calcJob j1 now = some j1) := by
  refine ⟨calc_state_ignored j now x y, ?_⟩
  intro j1 h
  unfold calcJob at h ⊢
  cases hc : caclulateNextRunAt j now with
  | none => rw [hc] at h; cases h
  | some r =>
      rw [hc] at h
      simp only [Option.map_some'] at h
      cases h
      have h2 : caclulateNextRunAt { j with nextRunAt := r } now
          = caclulateNextRunAt j now := by
        cases j
        rfl
      rw [h2, hc]
      simp only [Option.map_some']

theorem C9_witness :
    caclulateNextRunAt { tj .seconds 1 with nextRunAt := 77, lastRunAt := 5 } 3
        = caclulateNextRunAt (tj .seconds 1) 3 ∧
      calcJob { tj .seconds 1 with nextRunAt := 1000000000 } 3
        = some { tj .seconds 1 with nextRunAt := 1000000000 } :=
  ⟨(C9_calculator_deterministic (tj .seconds 1) 3 77 5).1,
    (C9_calculator_deterministic (tj .seconds 1) 3 77 5).2
      { tj .seconds 1 with nextRunAt := 1000000000 } (by decide)⟩

/-- Claim C1, counterexample. The claim says the abort decision compares the stored
`nextRunAt` to the pre-advance local `nextRunAt` (the slot being claimed), aborting
with "already claimed" (callback not invoked) if and only if stored >= slot. Concrete
refutation: a due `Seconds` job whose slot is 2 and whose stored record also holds 2
(so stored >= slot, and the claim predicts an abort); the code nevertheless claims,
invokes the callback and returns true, because `update` actually compares the stored
value against the already advanced `NextRunAt` (10^9). -/
theorem C1_counterexample :
    ({ tj .seconds 1 with nextRunAt := 2 } : GoJob).nextRunAt ≤ (2 : Int) ∧
      execute ⟨false, 2, false, false, false⟩ true { tj .seconds 1 with nextRunAt := 2 } 3
        = some ({ tj .seconds 1 with lastRunAt := 2, nextRunAt := 1000000000 }, true, true) :=
  ⟨by decide, by decide⟩

/-- Claim C1, amended. In `scheduler.update` the abort decision compares the stored
record's `nextRunAt` against the locally-computed post-advance `nextRunAt` (the value
`caclulateNextRunAt` just wrote), not the pre-advance slot: for every due job with a
store attached and a successful fetch, `update` reports "already claimed" if and only
if the stored `nextRunAt` is greater than or equal to the freshly advanced
`nextRunAt`; in that case `execute` returns false and the callback is not invoked. -/
theorem C1_update_abort_iff (env : StoreEnv) (j j2 : GoJob) (now : Int)
    (hdue : ¬ now < j.nextRunAt) (hfetch : env.fetchErr = false)
    (hcalc : calcJob { j with lastRunAt := j.nextRunAt } now = some j2) :
    (schedulerUpdate env true j2 = .alreadyClaimed ↔ j2.nextRunAt ≤ env.dbNextRunAt) ∧
      (j2.nextRunAt ≤ env.dbNextRunAt → execute env true j now = some (j2, false, false)) := by
  have hu : schedulerUpdate env true j2
      = (if j2.nextRunAt ≤ env.dbNextRunAt then .alreadyClaimed
         else if env.saveErr then .storeError
         else if env.commitErr && env.rollbackErr then .storeError
         else .ok) := by
    unfold schedulerUpdate
    rw [hfetch]
    rfl
  constructor
  · rw [hu]
    by_cases hdb : j2.nextRunAt ≤ env.dbNextRunAt
    · simp [hdb]
    · simp only [if_neg hdb]
      split_ifs <;> simp [hdb]
  · intro hdb
    have hcl : schedulerUpdate env true j2 = .alreadyClaimed := by
      rw [hu, if_pos hdb]
    unfold execute
    rw [if_neg hdue]
    simp only [hcalc]
    rw [if_neg (by rw [hcl]; intro hcontra; cases hcontra)]

theorem C1_witness :
    (schedulerUpdate ⟨false, 1000000000, false, false, false⟩ true
        { tj .seconds 1 with lastRunAt := 2, nextRunAt := 1000000000 } = .alreadyClaimed
      ↔ ({ tj .seconds 1 with lastRunAt := 2, nextRunAt := 1000000000 } : GoJob).nextRunAt
          ≤ (⟨false, 1000000000, false, false, false⟩ : StoreEnv).dbNextRunAt) ∧
      (({ tj .seconds 1 with lastRunAt := 2, nextRunAt := 1000000000 } : GoJob).nextRunAt
          ≤ (⟨false, 1000000000, false, false, false⟩ : StoreEnv).dbNextRunAt →
        execute ⟨false, 1000000000, false, false, false⟩ true
            { tj .seconds 1 with nextRunAt := 2 } 3
          = some ({ tj .seconds 1 with lastRunAt := 2, nextRunAt := 1000000000 },
              false, false)) :=
  C1_update_abort_iff ⟨false, 1000000000, false, false, false⟩
    { tj .seconds 1 with nextRunAt := 2 }
    { tj .seconds 1 with lastRunAt := 2, nextRunAt := 1000000000 } 3
    (by decide) (by decide) (by decide)

/-- Claim C2, counterexample. The claim says a failed claim leaves the job's
in-memory state (`lastRunAt`, `nextRunAt`) at its pre-attempt values. Concrete
refutation: a due `Seconds` job with `nextRunAt = 2` executed at `now = 3` against a
store whose fetch fails; `execute` returns false and skips the callback, but the
final state carries `lastRunAt = 2` and `nextRunAt = 10^9`, not the pre-attempt
`nextRunAt = 2`. -/
theorem C2_counterexample :
    execute ⟨true, 0, false, false, false⟩ true { tj .seconds 1 with nextRunAt := 2 } 3
        = some ({ tj .seconds 1 with lastRunAt := 2, nextRunAt := 1000000000 },
            false, false) ∧
      ({ tj .seconds 1 with lastRunAt := 2, nextRunAt := 1000000000 } : GoJob).nextRunAt
        ≠ ({ tj .seconds 1 with nextRunAt := 2 } : GoJob).nextRunAt :=
  ⟨by decide, by decide⟩

/-- Claim C2, amended. For every job with a shared store attached and every `now` at
which the job is due, if the claim fails (`scheduler.update` returns any non-ok
outcome, conflict or transient error) then `execute` returns false and the callback
is not invoked, but the in-memory state keeps the already performed advance:
`lastRunAt` holds the claimed slot (the pre-attempt `nextRunAt`) and `nextRunAt`
holds the freshly recomputed value; the mutation is not rolled back. -/
theorem C2_claim_fail_keeps_advanced (env : StoreEnv) (j j2 : GoJob) (now : Int)
    (hdue : ¬ now < j.nextRunAt)
    (hcalc : calcJob { j with lastRunAt := j.nextRunAt } now = some j2)
    (hfail : schedulerUpdate env true j2 ≠ .ok) :
    execute env true j now = some (j2, false, false) ∧
      j2.lastRunAt = j.nextRunAt ∧
      caclulateNextRunAt { j with lastRunAt := j.nextRunAt } now = some j2.nextRunAt := by
  refine ⟨?_, ?_, ?_⟩
  · unfold execute
    rw [if_neg hdue]
    simp only [hcalc]
    rw [if_neg hfail]
  · unfold calcJob at hcalc
    cases hc : caclulateNextRunAt { j with lastRunAt := j.nextRunAt } now with
    | none => rw [hc] at hcalc; cases hcalc
    | some r =>
        rw [hc] at hcalc
        simp only [Option.map_some'] at hcalc
        cases hcalc
        rfl
  · unfold calcJob at hcalc
    cases hc : caclulateNextRunAt { j with lastRunAt := j.nextRunAt } now with
    | none => rw [hc] at hcalc; cases hcalc
    | some r =>
        rw [hc] at hcalc
        simp only [Option.map_some'] at hcalc
        cases hcalc
        rfl

theorem C2_witness :
    execute ⟨true, 0, false, false, false⟩ true { tj .seconds 1 with nextRunAt := 2 } 3
        = some ({ tj .seconds 1 with lastRunAt := 2, nextRunAt := 1000000000 },
            false, false) ∧
      ({ tj .seconds 1 with lastRunAt := 2, nextRunAt := 1000000000 } : GoJob).lastRunAt
        = ({ tj .seconds 1 with nextRunAt := 2 } : GoJob).nextRunAt ∧
      caclulateNextRunAt
          { ({ tj .seconds 1 with nextRunAt := 2 } : GoJob) with lastRunAt := 2 } 3
        = some ({ tj .seconds 1 with lastRunAt := 2, nextRunAt := 1000000000 }
            : GoJob).nextRunAt :=
  C2_claim_fail_keeps_advanced ⟨true, 0, false, false, false⟩
    { tj .seconds 1 with nextRunAt := 2 }
    { tj .seconds 1 with lastRunAt := 2, nextRunAt := 1000000000 } 3
    (by decide) (by decide) (by decide)

/-- Claim C4, counterexample. The claim quantifies over every cadence type
including `Once`; for a `Once` job the calculator does not produce any
`NextRunAt` at all (the Go code panics in the `default` branch), so no result
greater than or equal to `now` exists at the concrete input. -/
theorem C4_counterexample :
    ¬ ∃ r, caclulateNextRunAt (tj .once 0) 0 = some r ∧ (0 : Int) ≤ r := by
  rintro ⟨r, hr, -⟩
  rw [show caclulateNextRunAt (tj .once 0) 0 = none from rfl] at hr
  cases hr

/-- Claim C4, amended. For the seven implemented recurring cadence types (all but
`Once`) and positive `intervalAmount`, the calculator terminates and the computed
`NextRunAt` is greater than or equal to the reference instant `now` — it never
regresses behind `now`. (`Once` is excluded: the code panics on it, see C3; and for
non-positive amounts the recurrence loop cannot terminate.) -/
theorem C4_next_ge_now (j : GoJob) (now : Int)
    (ht : j.intervalType ≠ .once) (ha : 0 < j.intervalAmount) :
    ∃ r, caclulateNextRunAt j now = some r ∧ now ≤ r := by
  obtain ⟨nm, amt, ty, mo, da, ho, mi, se, sa, lr, nr⟩ := j
  dsimp only at ht ha ⊢
  cases ty with
  | once => exact absurd rfl ht
  | years =>
      have hprog : ∀ x : Int, x < addDate x amt 0 0 := by
        intro x
        have := addDate_year_progress x amt (by omega)
        omega
      obtain ⟨r, hr⟩ := whileBefore_isSome (fun t => addDate t amt 0 0) now
        (addDate (goDate (timeYear sa) mo da ho mi se (timeNano sa)) (amt - 1) 0 0) hprog
      exact ⟨r, hr, whileBefore_ge _ _ _ _ hr⟩
  | months =>
      have hprog : ∀ x : Int, x < addDate x 0 amt 0 := by
        intro x
        have := addDate_month_progress x amt (by omega)
        omega
      obtain ⟨r, hr⟩ := whileBefore_isSome (fun t => addDate t 0 amt 0) now
        (addDate (goDate (timeYear sa) (timeMonth sa) da ho mi se (timeNano sa))
          0 (amt - 1) 0) hprog
      exact ⟨r, hr, whileBefore_ge _ _ _ _ hr⟩
  | weeks =>
      have hprog : ∀ x : Int, x < addDate x 0 0 (amt * 7) := by
        intro x
        rw [addDate_days]
        have : 0 < amt * 7 * 86400000000000 := by positivity
        omega
      obtain ⟨r, hr⟩ := whileBefore_isSome (fun t => addDate t 0 0 (amt * 7)) now
        (addDate (goDate (timeYear sa) (timeMonth sa) (timeDay sa) ho mi se (timeNano sa))
          0 0 (da - timeWeekday sa)) hprog
      exact ⟨r, hr, whileBefore_ge _ _ _ _ hr⟩
  | days =>
      have hprog : ∀ x : Int, x < addDate x 0 0 1 := by
        intro x
        rw [addDate_days]
        omega
      obtain ⟨r, hr⟩ := whileBefore_isSome (fun t => addDate t 0 0 1) now
        (goDate (timeYear sa) (timeMonth sa) (timeDay sa) ho mi se (timeNano sa)) hprog
      exact ⟨r, hr, whileBefore_ge _ _ _ _ hr⟩
  | hours =>
      have hprog : ∀ x : Int, x < x + 3600000000000 * amt := by
        intro x
        have : 0 < 3600000000000 * amt := by positivity
        omega
      obtain ⟨r, hr⟩ := whileBefore_isSome (fun t => t + 3600000000000 * amt) now
        (goDate (timeYear sa) (timeMonth sa) (timeDay sa) (timeHour sa) (timeMinute sa)
          (timeSecond sa) (timeNano sa) + 3600000000000 * amt) hprog
      exact ⟨r, hr, whileBefore_ge _ _ _ _ hr⟩
  | minutes =>
      have hprog : ∀ x : Int, x < x + 60000000000 * amt := by
        intro x
        have : 0 < 60000000000 * amt := by positivity
        omega
      obtain ⟨r, hr⟩ := whileBefore_isSome (fun t => t + 60000000000 * amt) now
        (goDate (timeYear sa) (timeMonth sa) (timeDay sa) (timeHour sa) (timeMinute sa)
          (timeSecond sa) (timeNano sa) + 60000000000 * amt) hprog
      exact ⟨r, hr, whileBefore_ge _ _ _ _ hr⟩
  | seconds =>
      have hprog : ∀ x : Int, x < x + 1000000000 * amt := by
        intro x
        have : 0 < 1000000000 * amt := by positivity
        omega
      obtain ⟨r, hr⟩ := whileBefore_isSome (fun t => t + 1000000000 * amt) now
        (goDate (timeYear sa) (timeMonth sa) (timeDay sa) (timeHour sa) (timeMinute sa)
          (timeSecond sa) (timeNano sa) + 1000000000 * amt) hprog
      exact ⟨r, hr, whileBefore_ge _ _ _ _ hr⟩

theorem C4_witness :
    ∃ r, caclulateNextRunAt (tj .seconds 1) 3 = some r ∧ (3 : Int) ≤ r :=
  C4_next_ge_now (tj .seconds 1) 3 (by decide) (by decide)

lemma affine_loop_least (d now t0 : Int) (hd : 0 < d) :
    ∃ k : Nat, 1 ≤ k ∧ whileBefore (fun x => x + d) now (t0 + d) = some (t0 + k * d) ∧
      now ≤ t0 + k * d ∧ ∀ k' : Nat, 1 ≤ k' → now ≤ t0 + k' * d → k ≤ k' := by
  obtain ⟨m, hm, hge, hlt⟩ := whileBefore_affine d now (t0 + d) hd
  refine ⟨m + 1, by omega, ?_, ?_, ?_⟩
  · rw [hm]
    congr 1
    push_cast
    ring
  · push_cast
    have hx : ((m : ℤ) + 1) * d = (m : ℤ) * d + d := by ring
    rw [hx]
    omega
  · intro k' h1 h2
    by_contra hk
    push_neg at hk
    have hj : k' - 1 < m := by omega
    have h3 := hlt (k' - 1) hj
    have hc : ((k' - 1 : ℕ) : ℤ) = (k' : ℤ) - 1 := by omega
    rw [hc] at h3
    have hx : ((k' : ℤ) - 1) * d = (k' : ℤ) * d - d := by ring
    rw [hx] at h3
    omega

/-- Claim C5. For the `Seconds`, `Minutes` and `Hours` cadence types with positive
`intervalAmount`, the calculator's result equals `startAt` (the anchor rebuilt from
`startAt`'s own date and time-of-day fields, nanoseconds preserved — which is
`startAt` itself) plus `k` times the `intervalAmount`-sized step, where `k` is the
least integer `k ≥ 1` making the result greater than or equal to `now`. -/
theorem C5_sub_day_least_multiple (j : GoJob) (now : Int)
    (ht : j.intervalType = .seconds ∨ j.intervalType = .minutes ∨ j.intervalType = .hours)
    (ha : 0 < j.intervalAmount) :
    ∃ k : Nat, 1 ≤ k ∧
      caclulateNextRunAt j now
        = some (j.startAt + k * (intervalUnitNs j.intervalType * j.intervalAmount)) ∧
      now ≤ j.startAt + k * (intervalUnitNs j.intervalType * j.intervalAmount) ∧
      ∀ k' : Nat, 1 ≤ k' →
        now ≤ j.startAt + k' * (intervalUnitNs j.intervalType * j.intervalAmount) →
          k ≤ k' := by
  obtain ⟨nm, amt, ty, mo, da, ho, mi, se, sa, lr, nr⟩ := j
  dsimp only at ht ha ⊢
  have hn0 := goDate_timeFields sa
  rcases ht with h | h | h <;> subst h
  · obtain ⟨k, hk1, heq, hge, hmin⟩ := affine_loop_least (1000000000 * amt) now sa
      (by positivity)
    refine ⟨k, hk1, ?_, hge, hmin⟩
    show whileBefore (fun t => t + 1000000000 * amt) now
      (goDate (timeYear sa) (timeMonth sa) (timeDay sa) (timeHour sa) (timeMinute sa)
        (timeSecond sa) (timeNano sa) + 1000000000 * amt) = _
    rw [hn0]
    exact heq
  · obtain ⟨k, hk1, heq, hge, hmin⟩ := affine_loop_least (60000000000 * amt) now sa
      (by positivity)
    refine ⟨k, hk1, ?_, hge, hmin⟩
    show whileBefore (fun t => t + 60000000000 * amt) now
      (goDate (timeYear sa) (timeMonth sa) (timeDay sa) (timeHour sa) (timeMinute sa)
        (timeSecond sa) (timeNano sa) + 60000000000 * amt) = _
    rw [hn0]
    exact heq
  · obtain ⟨k, hk1, heq, hge, hmin⟩ := affine_loop_least (3600000000000 * amt) now sa
      (by positivity)
    refine ⟨k, hk1, ?_, hge, hmin⟩
    show whileBefore (fun t => t + 3600000000000 * amt) now
      (goDate (timeYear sa) (timeMonth sa) (timeDay sa) (timeHour sa) (timeMinute sa)
        (timeSecond sa) (timeNano sa) + 3600000000000 * amt) = _
    rw [hn0]
    exact heq

theorem C5_witness :
    ∃ k : Nat, 1 ≤ k ∧
      caclulateNextRunAt (tj .seconds 1) 2500000000
        = some ((tj .seconds 1).startAt
            + k * (intervalUnitNs (tj .seconds 1).intervalType
                * (tj .seconds 1).intervalAmount)) ∧
      (2500000000 : Int) ≤ (tj .seconds 1).startAt
          + k * (intervalUnitNs (tj .seconds 1).intervalType
              * (tj .seconds 1).intervalAmount) ∧
      ∀ k' : Nat, 1 ≤ k' →
        (2500000000 : Int) ≤ (tj .seconds 1).startAt
            + k' * (intervalUnitNs (tj .seconds 1).intervalType
                * (tj .seconds 1).intervalAmount) → k ≤ k' :=
  C5_sub_day_least_multiple (tj .seconds 1) 2500000000 (by decide) (by decide)

/-- Claim C6. For the `Days` cadence type the calculator starts from `startAt`'s
calendar date combined with the explicit hour/minute/second anchor and repeatedly
adds exactly one day until the result is greater than or equal to `now` (least such
day count); the stepping is one day at a time regardless of `intervalAmount` — the
result is unchanged under any replacement of `intervalAmount`. -/
theorem C6_days_single_day_steps (j : GoJob) (now : Int) (ht : j.intervalType = .days) :
    ∃ k : Nat,
      caclulateNextRunAt j now
        = some (goDate (timeYear j.startAt) (timeMonth j.startAt) (timeDay j.startAt)
            j.hour j.minute j.second (timeNano j.startAt) + k * 86400000000000) ∧
      now ≤ goDate (timeYear j.startAt) (timeMonth j.startAt) (timeDay j.startAt)
          j.hour j.minute j.second (timeNano j.startAt) + k * 86400000000000 ∧
      (∀ i : Nat, i < k →
        goDate (timeYear j.startAt) (timeMonth j.startAt) (timeDay j.startAt)
            j.hour j.minute j.second (timeNano j.startAt) + i * 86400000000000 < now) ∧
      (∀ x : Int, caclulateNextRunAt { j with intervalAmount := x } now
        = caclulateNextRunAt j now) := by
  obtain ⟨nm, amt, ty, mo, da, ho, mi, se, sa, lr, nr⟩ := j
  dsimp only at ht ⊢
  subst ht
  have hstep : (fun t => addDate t 0 0 1) = (fun t : Int => t + 86400000000000) := by
    funext t
    rw [addDate_days]
    ring
  have hcalc : caclulateNextRunAt
      ⟨nm, amt, .days, mo, da, ho, mi, se, sa, lr, nr⟩ now
      = whileBefore (fun t : Int => t + 86400000000000) now
        (goDate (timeYear sa) (timeMonth sa) (timeDay sa) ho mi se (timeNano sa)) := by
    show whileBefore (fun t => addDate t 0 0 1) now
      (goDate (timeYear sa) (timeMonth sa) (timeDay sa) ho mi se (timeNano sa)) = _
    rw [hstep]
  rw [hcalc]
  obtain ⟨k, hk, hge, hlt⟩ := whileBefore_affine 86400000000000 now
    (goDate (timeYear sa) (timeMonth sa) (timeDay sa) ho mi se (timeNano sa))
    (by norm_num)
  refine ⟨k, hk, hge, hlt, fun x => ?_⟩
  show whileBefore (fun t => addDate t 0 0 1) now
    (goDate (timeYear sa) (timeMonth sa) (timeDay sa) ho mi se (timeNano sa)) = _
  rw [hstep]

theorem C6_witness :
    ∃ k : Nat,
      caclulateNextRunAt (tj .days 5) 1
        = some (goDate (timeYear (tj .days 5).startAt) (timeMonth (tj .days 5).startAt)
            (timeDay (tj .days 5).startAt) (tj .days 5).hour (tj .days 5).minute
            (tj .days 5).second (timeNano (tj .days 5).startAt) + k * 86400000000000) ∧
      (1 : Int) ≤ goDate (timeYear (tj .days 5).startAt) (timeMonth (tj .days 5).startAt)
          (timeDay (tj .days 5).startAt) (tj .days 5).hour (tj .days 5).minute
          (tj .days 5).second (timeNano (tj .days 5).startAt) + k * 86400000000000 ∧
      (∀ i : Nat, i < k →
        goDate (timeYear (tj .days 5).startAt) (timeMonth (tj .days 5).startAt)
            (timeDay (tj .days 5).startAt) (tj .days 5).hour (tj .days 5).minute
            (tj .days 5).second (timeNano (tj .days 5).startAt)
          + i * 86400000000000 < 1) ∧
      (∀ x : Int, caclulateNextRunAt { tj .days 5 with intervalAmount := x } 1
        = caclulateNextRunAt (tj .days 5) 1) :=
  C6_days_single_day_steps (tj .days 5) 1 (by decide)

/-- Claim C10. For every registration whose job name is not a process-local
duplicate, `scheduler.add` appends the job to the in-memory list on every return
path — for every store environment, including every store-error path — because the
append runs in a deferred block placed before the store interaction; moreover a
failure to create the persisted record is only logged: `add` returns no error on
that path. -/
theorem C10_append_on_all_paths (jobs : List GoJob) (j : GoJob)
    (h : ∀ a ∈ jobs, a.jobName ≠ j.jobName) (env : AddEnv) :
    (schedulerAdd env jobs j).1 = jobs ++ [j] ∧
      (env.hasDB = true → env.fetch = .notFound → env.createErr = true →
        (schedulerAdd env jobs j).2 = none) := by
  have hany : jobs.any (fun a => a.jobName == j.jobName) = false := by
    rw [List.any_eq_false]
    intro a ha
    simp [h a ha]
  unfold schedulerAdd
  rw [hany]
  rcases env with ⟨hasDB, fetch, ce, sv, cm, rb⟩
  cases hasDB <;> cases fetch <;> cases ce <;> cases sv <;> cases cm <;> cases rb <;>
    refine ⟨rfl, fun h1 h2 h3 => ?_⟩ <;>
    first
      | rfl
      | exact absurd h1 (by decide)
      | exact absurd h2 (by decide)
      | exact absurd h3 (by decide)

theorem C10_witness :
    (schedulerAdd ⟨true, .notFound, true, false, false, false⟩ [tj .seconds 1]
        { tj .seconds 2 with jobName := "u" }).1
      = [tj .seconds 1] ++ [{ tj .seconds 2 with jobName := "u" }] ∧
      ((⟨true, .notFound, true, false, false, false⟩ : AddEnv).hasDB = true →
        (⟨true, .notFound, true, false, false, false⟩ : AddEnv).fetch = .notFound →
        (⟨true, .notFound, true, false, false, false⟩ : AddEnv).createErr = true →
        (schedulerAdd ⟨true, .notFound, true, false, false, false⟩ [tj .seconds 1]
          { tj .seconds 2 with jobName := "u" }).2 = none) :=
  C10_append_on_all_paths [tj .seconds 1] { tj .seconds 2 with jobName := "u" }
    (by decide) ⟨true, .notFound, true, false, false, false⟩
